import Mathlib

/-!
# A shallow embedding of the YieldCore staking vault

This file embeds the `YieldCore` contract (src/unnamed/part_000) in Lean 4 and
proves properties of its stake lifecycle, reward accrual and pool accounting.

Modelling conventions:
* EVM `uint256` values are modelled as `Nat`.  The quantities handled by the
  contract (token amounts, timestamps, percentage rates) stay far below
  2^256 in every scenario considered here, so `Nat` arithmetic agrees with
  the checked `uint256` arithmetic of Solidity >= 0.8 on the success path;
  a checked subtraction that would underflow is modelled as an explicit
  error (Solidity reverts there).
* Each external function becomes a Lean function from a pre-state (plus the
  caller, arguments and `block.timestamp`, called `now`) to
  `Except String result`.  `Except.error` models `revert`: since a revert
  discards every pending storage write, an error result carries no state
  and the caller keeps the pre-state, which is exactly the EVM semantics.
* Token transfers are modelled by returning the transferred amount
  (`safeTransfer` to the caller); `safeTransferFrom` into the contract needs
  no bookkeeping for the claims below.  Events are returned where a claim
  mentions them.
* `onlyOwner` is not modelled: the owner can always call the privileged
  functions, and none of the properties below depend on the caller's
  identity.  Addresses are modelled as `Nat`.
* Out-of-bounds array access reverts in Solidity; the mutating entry points
  below check the index explicitly and error out, and the `view` function
  `calculateReward` is stated only at valid indices.
-/

namespace YieldCore

/-- One day (`1 days`) in seconds. -/
def SECONDS_PER_DAY : Nat := 86400

/-- Source: `uint256 public constant MAX_REWARD_TIME = 1 days;` -/
def MAX_REWARD_TIME : Nat := SECONDS_PER_DAY

/-- Source: `uint256 public constant DIVISOR = 100;` -/
def DIVISOR : Nat := 100

/-- Source: `uint256 public constant GRACE_PERIOD = 2 days;` -/
def GRACE_PERIOD : Nat := 2 * SECONDS_PER_DAY

/-- The `StakeInfo` struct. -/
structure StakeInfo where
  amount : Nat
  startTime : Nat
  lockPeriod : Nat
  fixedRate : Nat
  rewardsClaimed : Nat
  active : Bool
  expired : Bool
deriving DecidableEq

/-- The contract storage: the pause flag (from `Pausable`), `rewardPool`,
`stakes`, `dailyRateByLock` and `penaltyByLock`. -/
structure YCState where
  paused : Bool
  rewardPool : Nat
  stakes : Nat → List StakeInfo
  dailyRateByLock : Nat → Nat
  penaltyByLock : Nat → Nat

/-- The helper `_isExpired`: `block.timestamp >= s.startTime + s.lockPeriod + GRACE_PERIOD`. -/
def isExpired (s : StakeInfo) (now : Nat) : Prop :=
  s.startTime + s.lockPeriod + GRACE_PERIOD ≤ now

instance (s : StakeInfo) (now : Nat) : Decidable (isExpired s now) :=
  Nat.decLe _ _

/-- The view `maxReward` (record part): `(s.amount * s.fixedRate) / 100`. -/
def maxReward (s : StakeInfo) : Nat :=
  s.amount * s.fixedRate / 100

/-- The body of `calculateReward` on a single stake record and the current time.
Mirrors the body of the Solidity function after the record is loaded. -/
def calculateRewardOf (s : StakeInfo) (now : Nat) : Nat :=
  if s.active = false ∨ s.expired = true ∨ isExpired s now then 0
  else
    let timeElapsed := now - s.startTime
    let timeElapsed := if timeElapsed > MAX_REWARD_TIME then MAX_REWARD_TIME else timeElapsed
    let totalEarned := s.amount * s.fixedRate * timeElapsed / (DIVISOR * SECONDS_PER_DAY)
    if totalEarned ≤ s.rewardsClaimed then 0 else totalEarned - s.rewardsClaimed

/-- The view `calculateReward(address _user, uint256 _index)`,
reading `stakes[_user][_index]`.  (Solidity reverts on an out-of-bounds
index; the claims below only use valid indices, where this total version
agrees.) -/
def calculateReward (st : YCState) (user index now : Nat) : Nat :=
  match (st.stakes user)[index]? with
  | some s => calculateRewardOf s now
  | none => 0

/-- Overwrite the record at `stakes[user][index]` (a Solidity storage write
through the `StakeInfo storage s` pointer). -/
def setAt (st : YCState) (user index : Nat) (s : StakeInfo) : YCState :=
  { st with stakes := fun a => if a = user then (st.stakes user).set index s else st.stakes a }

/-- Source function `setLockParameters(uint256 _lockPeriod, uint256 _dailyRate, uint256 _penaltyRate)`
(`onlyOwner`). -/
def setLockParameters (st : YCState) (lockPeriod dailyRate penaltyRate : Nat) :
    Except String YCState :=
  if lockPeriod = 0 then .error "invalid lock period"
  else .ok { st with
    dailyRateByLock := fun d => if d = lockPeriod then dailyRate else st.dailyRateByLock d,
    penaltyByLock := fun d => if d = lockPeriod then penaltyRate else st.penaltyByLock d }

/-- Source function `fundRewardPool(uint256 _amount)` (`onlyOwner whenNotPaused`); the
transferred-in tokens only matter through `rewardPool`. -/
def fundRewardPool (st : YCState) (amount : Nat) : Except String YCState :=
  if st.paused then .error "paused"
  else if amount = 0 then .error "cant deposit zero"
  else .ok { st with rewardPool := st.rewardPool + amount }

/-- Source function `stake(uint256 _amount, uint256 _lockPeriod)` (`whenNotPaused`),
called by `user`. -/
def stake (st : YCState) (user amount lockPeriod now : Nat) : Except String YCState :=
  if st.paused then .error "paused"
  else if amount = 0 then .error "cant stake zero"
  else
    let rate := st.dailyRateByLock lockPeriod
    if rate = 0 then .error "invalid lock period"
    else .ok { st with stakes :=
      (fun a =>
        if a = user then st.stakes user ++ [⟨amount, now, lockPeriod, rate, 0, true, false⟩]
        else st.stakes a) }

/-- Source function `claimReward(uint256 _index)` (`whenNotPaused nonReentrant`), called by
`user`.  The returned `Nat` is the amount `safeTransfer`red to the caller.
The inner `calculateReward(msg.sender, _index)` call re-reads the same,
still unmodified, record `s`. -/
def claimReward (st : YCState) (user index now : Nat) :
    Except String (YCState × Nat) :=
  if st.paused then .error "paused"
  else match (st.stakes user)[index]? with
  | none => .error "index out of bounds"
  | some s =>
    if s.active = false then .error "inactive stake"
    else
      let reward := calculateRewardOf s now
      if reward = 0 then .error "no accrued rewards"
      else if st.rewardPool < reward then .error "insufficient reward pool"
      else .ok
        ({ setAt st user index { s with rewardsClaimed := s.rewardsClaimed + reward } with
            rewardPool := st.rewardPool - reward },
         reward)

/-- The event emitted by `unstake` (the two cases the claims care about). -/
inductive UnstakeEvent where
  | UnstakeAfterLock (user index principal reward : Nat)
  | EarlyUnstake (user index principal penalty : Nat)
deriving DecidableEq

/-- Source function `unstake(uint256 _index)` (`whenNotPaused nonReentrant`), called by
`user`.  Returns the new state, the transferred payout and the emitted
event.  The storage write `s.expired = true` (when the grace period has
elapsed) happens before `calculateReward` is consulted, so that call sees
the updated record `s1`.  On the early path, `payout = s.amount - penalty`
is checked arithmetic: if the penalty exceeds the principal the whole call
reverts (modelled as `.error`), discarding the earlier `rewardPool`
update exactly as the EVM does. -/
def unstake (st : YCState) (user index now : Nat) :
    Except String (YCState × Nat × UnstakeEvent) :=
  if st.paused then .error "paused"
  else match (st.stakes user)[index]? with
  | none => .error "index out of bounds"
  | some s =>
    if s.active = false ∧ s.expired = false then .error "inactive stake"
    else
      let principal := s.amount
      let s1 := if isExpired s now then { s with expired := true } else s
      if s1.startTime + s1.lockPeriod ≤ now then
        let reward := calculateRewardOf s1 now
        if st.rewardPool < reward then .error "insufficient reward pool balance"
        else .ok
          ({ setAt st user index
              { s1 with rewardsClaimed := s1.rewardsClaimed + reward, amount := 0, active := false }
             with rewardPool := st.rewardPool - reward },
           principal + reward,
           .UnstakeAfterLock user index principal reward)
      else
        let penaltyPercentage := st.penaltyByLock s1.lockPeriod
        let penalty := principal * penaltyPercentage / DIVISOR
        if s1.amount < penalty then .error "arithmetic underflow"
        else .ok
          ({ setAt st user index { s1 with amount := 0, active := false } with
              rewardPool := st.rewardPool + penalty },
           s1.amount - penalty,
           .EarlyUnstake user index principal penalty)

/-- Source function `cleanUpExpiredStake(address _user, uint256 _index)` (`onlyOwner`).
Flips the flags only; the amount is left in place. -/
def cleanUpExpiredStake (st : YCState) (user index now : Nat) :
    Except String YCState :=
  match (st.stakes user)[index]? with
  | none => .error "index out of bounds"
  | some s =>
    if s.active = false then .error "already inactive"
    else if ¬ isExpired s now then .error "not expired"
    else .ok (setAt st user index { s with active := false, expired := true })

/-- Source function `emergencyWithdraw(uint256 _index)` (`whenPaused nonReentrant`), called
by `user`.  Returns the new state and the transferred principal. -/
def emergencyWithdraw (st : YCState) (user index : Nat) :
    Except String (YCState × Nat) :=
  if st.paused = false then .error "not paused"
  else match (st.stakes user)[index]? with
  | none => .error "index out of bounds"
  | some s =>
    if s.active = false then .error "invalid stake"
    else .ok (setAt st user index { s with amount := 0, active := false }, s.amount)

/-- The tokens a `claimReward` call pushes to the caller; a reverted call
transfers nothing. -/
def paidAmount (r : Except String (YCState × Nat)) : Nat :=
  match r with
  | .ok (_, p) => p
  | .error _ => 0

/-- Whether a call completed without reverting. -/
def exceptIsOk {α : Type} (r : Except String α) : Bool :=
  match r with
  | .ok _ => true
  | .error _ => false

/-- One external mutating entry point together with its arguments
(`user` is the caller where relevant). -/
inductive Op where
  | setLockParameters (lockPeriod dailyRate penaltyRate : Nat)
  | fundRewardPool (amount : Nat)
  | stake (user amount lockPeriod : Nat)
  | claimReward (user index : Nat)
  | unstake (user index : Nat)
  | cleanUpExpiredStake (user index : Nat)
  | emergencyWithdraw (user index : Nat)
  | pause
  | unpause

/-- Execute one entry point at time `now`, discarding transfer amounts and
events.  `pause` / `unpause` follow OpenZeppelin `Pausable` (`_pause`
requires not paused, `_unpause` requires paused). -/
def stepOp (st : YCState) (op : Op) (now : Nat) : Except String YCState :=
  match op with
  | .setLockParameters l d p => setLockParameters st l d p
  | .fundRewardPool a => fundRewardPool st a
  | .stake u a l => stake st u a l now
  | .claimReward u i => (claimReward st u i now).map Prod.fst
  | .unstake u i => (unstake st u i now).map Prod.fst
  | .cleanUpExpiredStake u i => cleanUpExpiredStake st u i now
  | .emergencyWithdraw u i => (emergencyWithdraw st u i).map Prod.fst
  | .pause => if st.paused then .error "already paused" else .ok { st with paused := true }
  | .unpause => if st.paused then .ok { st with paused := false } else .error "not paused"

/-- The state right after the constructor: unpaused, empty pool, no stakes,
empty rate registries. -/
def initialState : YCState :=
  { paused := false, rewardPool := 0, stakes := fun _ => [],
    dailyRateByLock := fun _ => 0, penaltyByLock := fun _ => 0 }

/-- States reachable from the freshly deployed contract by any sequence of
successful external calls, each executed at an arbitrary timestamp.  (This
is a superset of the states reachable under a monotone clock, so an
invariant proved over it also holds for the real contract; the concrete
traces used below all carry non-decreasing timestamps.) -/
inductive Reachable : YCState → Prop where
  | init : Reachable initialState
  | step {st st' : YCState} (op : Op) (now : Nat) :
      Reachable st → stepOp st op now = .ok st' → Reachable st'

/-- Run a list of (entry point, timestamp) pairs, stopping at the first
revert. -/
def applyTrace : YCState → List (Op × Nat) → Option YCState
  | st, [] => some st
  | st, (op, now) :: rest =>
    match stepOp st op now with
    | .ok st' => applyTrace st' rest
    | .error _ => none

theorem reachable_applyTrace (ops : List (Op × Nat)) :
    ∀ {st st' : YCState}, Reachable st → applyTrace st ops = some st' → Reachable st' := by
  induction ops with
  | nil =>
    intro st st' h happ
    cases happ
    exact h
  | cons hd tl ih =>
    intro st st' h happ
    simp only [applyTrace] at happ
    cases hstep : stepOp st hd.1 hd.2 with
    | ok st1 =>
      rw [hstep] at happ
      exact ih (Reachable.step hd.1 hd.2 h hstep) happ
    | error e =>
      rw [hstep] at happ
      cases happ

/-- The state a trace from `initialState` ends in (junk when some call in
the trace reverts; every use below is on a reverting-free trace, where the
defining equation holds by `rfl`). -/
def stateAfter (ops : List (Op × Nat)) : YCState :=
  (applyTrace initialState ops).getD initialState

/-- Every active record's `rewardsClaimed` is below the day-1 cap. -/
def CapInv (st : YCState) : Prop :=
  ∀ u : Nat, ∀ s ∈ st.stakes u, s.active = true → s.rewardsClaimed ≤ maxReward s

/-- Every inactive record has been emptied, unless it was tombstoned by
`cleanUpExpiredStake` (which flips `expired` but keeps the amount). -/
def TombInv (st : YCState) : Prop :=
  ∀ u : Nat, ∀ s ∈ st.stakes u, s.active = false → s.amount = 0 ∨ s.expired = true

/-- Modelled from the spec's description of the Reward Calculator (spec
section 4.2 and the C4 sources), for comparison with the code-derived
`calculateReward`: returns 0 when the stake is inactive, flagged expired,
or `now ≥ start + lockDuration + GRACE_PERIOD`; otherwise
`max(floor(principal * fixedRate * min(now - start, MAX_REWARD_TIME) /
(100 * SECONDS_PER_DAY)) - rewardsClaimed, 0)`.  Over `Nat`, truncated
subtraction is exactly `max(x - y, 0)`. -/
def claimFormula (s : StakeInfo) (now : Nat) : Nat :=
  if s.active = false ∨ s.expired = true ∨ s.startTime + s.lockPeriod + GRACE_PERIOD ≤ now
  then 0
  else s.amount * s.fixedRate * min (now - s.startTime) MAX_REWARD_TIME
        / (100 * SECONDS_PER_DAY) - s.rewardsClaimed

/-! Concrete traces (all with non-decreasing timestamps), used to witness
hypotheses and to refute universally quantified statements.  The base
scenario is the one worked out in the specification: a lock duration of
600 seconds registered with `dailyRate = 10`, `penaltyRate = 10`, a pool
funded with 10 tokens and a stake of 100 tokens placed at time 0. -/

def baseTrace : List (Op × Nat) :=
  [(.setLockParameters 600 10 10, 0), (.fundRewardPool 10, 0), (.stake 0 100 600, 0)]

/-- The base scenario's state: one active stake of 100 at time 0. -/
def stBase : YCState := stateAfter baseTrace

/-- The base scenario after a `claimReward` at t = 43200 (pays 5). -/
def stClaimed : YCState := stateAfter (baseTrace ++ [(.claimReward 0 0, 43200)])

/-- The base scenario after an `unstake` at t = 86400 (lock elapsed, grace
not elapsed; pays principal 100 plus reward 10 and empties the record). -/
def stUnstaked : YCState := stateAfter (baseTrace ++ [(.unstake 0 0, 86400)])

/-- The base scenario after an `unstake` at t = 173400 (grace elapsed:
the call flags the record expired and pays the principal only). -/
def stExpiredUnstaked : YCState := stateAfter (baseTrace ++ [(.unstake 0 0, 173400)])

/-- Base scenario, but the owner runs `cleanUpExpiredStake` at t = 173400:
the record is deactivated with its 100 tokens still stored. -/
def stCleaned : YCState :=
  stateAfter [(.setLockParameters 600 10 10, 0), (.stake 0 100 600, 0),
              (.cleanUpExpiredStake 0 0, 173400)]

/-- A stake of 1 token under a registered penalty rate of 101 percent:
`floor(1 * 101 / 100) = 1` does not exceed the principal. -/
def stPenalty101 : YCState :=
  stateAfter [(.setLockParameters 600 10 101, 0), (.stake 0 1 600, 0)]

/-- A stake of 100 tokens under a registered penalty rate of 200 percent:
the penalty 200 exceeds the principal and the early path underflows. -/
def stPenalty200 : YCState :=
  stateAfter [(.setLockParameters 600 10 200, 0), (.stake 0 100 600, 0)]

/-- The base scenario while paused (for the emergency-withdraw witness). -/
def stBasePaused : YCState := stateAfter (baseTrace ++ [(.pause, 0)])

/-- The base scenario after the owner re-registers new parameters for lock
duration 700 (frame witness for `setLockParameters`). -/
def stRelocked : YCState := stateAfter (baseTrace ++ [(.setLockParameters 700 5 5, 0)])

/-! ## Helper lemmas -/

theorem calculateReward_eq_of {st : YCState} {u i : Nat} (now : Nat) {s : StakeInfo}
    (hs : (st.stakes u)[i]? = some s) :
    calculateReward st u i now = calculateRewardOf s now := by
  unfold calculateReward
  rw [hs]

theorem getElem?_lt_length {α : Type} {l : List α} {i : Nat} {a : α}
    (h : l[i]? = some a) : i < l.length := by
  by_contra hc
  rw [List.getElem?_eq_none (Nat.le_of_not_lt hc)] at h
  cases h

theorem setAt_stakes_self {st : YCState} {u i : Nat}
    (h : i < (st.stakes u).length) (rec' : StakeInfo) :
    ((setAt st u i rec').stakes u)[i]? = some rec' := by
  simp [setAt, List.getElem?_set_self h]

theorem setAt_stakes_ne_user {st : YCState} {u' u : Nat} (i' : Nat) (rec' : StakeInfo)
    (h : u ≠ u') : (setAt st u' i' rec').stakes u = st.stakes u := by
  simp only [setAt]
  rw [if_neg h]

theorem setAt_stakes_ne_index {st : YCState} {u i' i : Nat} (rec' : StakeInfo)
    (h : i' ≠ i) : ((setAt st u i' rec').stakes u)[i]? = (st.stakes u)[i]? := by
  simp [setAt, List.getElem?_set_ne h]

theorem mem_setAt {st : YCState} {u' i' : Nat} {rec' : StakeInfo} {a : Nat} {x : StakeInfo}
    (hx : x ∈ (setAt st u' i' rec').stakes a) : x ∈ st.stakes a ∨ x = rec' := by
  simp only [setAt] at hx
  by_cases ha : a = u'
  · rw [if_pos ha] at hx
    rcases List.mem_or_eq_of_mem_set hx with h | h
    · exact Or.inl (ha ▸ h)
    · exact Or.inr h
  · rw [if_neg ha] at hx
    exact Or.inl hx

/-- The quantity `totalEarned` with a capped elapsed time is bounded by the day-1 cap. -/
theorem totalEarned_le_cap (a r e : Nat) (he : e ≤ SECONDS_PER_DAY) :
    a * r * e / (DIVISOR * SECONDS_PER_DAY) ≤ a * r / 100 :=
  calc a * r * e / (DIVISOR * SECONDS_PER_DAY)
      ≤ a * r * SECONDS_PER_DAY / (DIVISOR * SECONDS_PER_DAY) :=
        Nat.div_le_div_right (Nat.mul_le_mul_left (a * r) he)
    _ = a * r / 100 := Nat.mul_div_mul_right (a * r) DIVISOR (by norm_num [SECONDS_PER_DAY])

/-- The function `calculateRewardOf` either returns 0 or tops `rewardsClaimed` up to at
most the day-1 cap `maxReward`. -/
theorem calculateRewardOf_le (s : StakeInfo) (now : Nat) :
    calculateRewardOf s now = 0 ∨
      s.rewardsClaimed + calculateRewardOf s now ≤ maxReward s := by
  simp only [calculateRewardOf]
  split
  · exact Or.inl rfl
  · generalize hE : (if now - s.startTime > MAX_REWARD_TIME then MAX_REWARD_TIME
        else now - s.startTime) = e
    have heb : e ≤ SECONDS_PER_DAY := by
      rw [← hE]
      split
      · exact Nat.le_refl _
      · next h2 => exact Nat.le_of_not_lt h2
    have hle := totalEarned_le_cap s.amount s.fixedRate e heb
    split
    · exact Or.inl rfl
    · next h2 =>
        right
        unfold maxReward
        omega

/-- A record's claimable reward never lifts `rewardsClaimed` above
`maxReward`. -/
theorem rewardsClaimed_add_calc_le (s : StakeInfo) (now : Nat)
    (h : s.rewardsClaimed ≤ maxReward s) :
    s.rewardsClaimed + calculateRewardOf s now ≤ maxReward s := by
  rcases calculateRewardOf_le s now with h0 | hle
  · rw [h0]
    simpa using h
  · exact hle

theorem calculateRewardOf_inactive {s : StakeInfo} (now : Nat) (h : s.active = false) :
    calculateRewardOf s now = 0 := by
  simp [calculateRewardOf, h]

theorem calculateRewardOf_expiredFlag {s : StakeInfo} (now : Nat) (h : s.expired = true) :
    calculateRewardOf s now = 0 := by
  simp [calculateRewardOf, h]

theorem calculateRewardOf_isExpired {s : StakeInfo} {now : Nat} (h : isExpired s now) :
    calculateRewardOf s now = 0 := by
  simp [calculateRewardOf, h]

/-! ## Success/failure characterizations of the entry points -/

theorem claimReward_ok_of (st : YCState) (u i now : Nat) (s : StakeInfo)
    (hp : st.paused = false) (hs : (st.stakes u)[i]? = some s) (hact : s.active = true)
    (hr : calculateRewardOf s now ≠ 0) (hpool : calculateRewardOf s now ≤ st.rewardPool) :
    claimReward st u i now =
      .ok ({ setAt st u i { s with rewardsClaimed := s.rewardsClaimed + calculateRewardOf s now }
              with rewardPool := st.rewardPool - calculateRewardOf s now },
           calculateRewardOf s now) := by
  simp [claimReward, hp, hs, hact, hr, Nat.not_lt.mpr hpool]

theorem claimReward_err_zero_of (st : YCState) (u i now : Nat) (s : StakeInfo)
    (hp : st.paused = false) (hs : (st.stakes u)[i]? = some s) (hact : s.active = true)
    (hz : calculateRewardOf s now = 0) :
    claimReward st u i now = .error "no accrued rewards" := by
  simp [claimReward, hp, hs, hact, hz]

theorem unstake_early_ok_of (st : YCState) (u i now : Nat) (s : StakeInfo)
    (hp : st.paused = false) (hs : (st.stakes u)[i]? = some s) (hact : s.active = true)
    (hlock : now < s.startTime + s.lockPeriod)
    (hpen : s.amount * st.penaltyByLock s.lockPeriod / DIVISOR ≤ s.amount) :
    unstake st u i now =
      .ok ({ setAt st u i { s with amount := 0, active := false }
              with rewardPool := st.rewardPool + s.amount * st.penaltyByLock s.lockPeriod / DIVISOR },
           s.amount - s.amount * st.penaltyByLock s.lockPeriod / DIVISOR,
           .EarlyUnstake u i s.amount (s.amount * st.penaltyByLock s.lockPeriod / DIVISOR)) := by
  have hnexp : ¬ isExpired s now := by
    unfold isExpired
    omega
  simp [unstake, hp, hs, hact, hnexp, Nat.not_le.mpr hlock, Nat.not_lt.mpr hpen]

theorem unstake_early_err_of (st : YCState) (u i now : Nat) (s : StakeInfo)
    (hp : st.paused = false) (hs : (st.stakes u)[i]? = some s) (hact : s.active = true)
    (hlock : now < s.startTime + s.lockPeriod)
    (hpen : s.amount < s.amount * st.penaltyByLock s.lockPeriod / DIVISOR) :
    unstake st u i now = .error "arithmetic underflow" := by
  have hnexp : ¬ isExpired s now := by
    unfold isExpired
    omega
  simp [unstake, hp, hs, hact, hnexp, Nat.not_le.mpr hlock, hpen]

theorem unstake_afterLock_ok_of (st : YCState) (u i now : Nat) (s : StakeInfo)
    (hp : st.paused = false) (hs : (st.stakes u)[i]? = some s) (hact : s.active = true)
    (hlock : s.startTime + s.lockPeriod ≤ now) (hnexp : ¬ isExpired s now)
    (hpool : calculateRewardOf s now ≤ st.rewardPool) :
    unstake st u i now =
      .ok ({ setAt st u i { s with rewardsClaimed := s.rewardsClaimed + calculateRewardOf s now, amount := 0, active := false }
              with rewardPool := st.rewardPool - calculateRewardOf s now },
           s.amount + calculateRewardOf s now,
           .UnstakeAfterLock u i s.amount (calculateRewardOf s now)) := by
  simp [unstake, hp, hs, hact, hnexp, hlock, Nat.not_lt.mpr hpool]

theorem unstake_afterLock_err_of (st : YCState) (u i now : Nat) (s : StakeInfo)
    (hp : st.paused = false) (hs : (st.stakes u)[i]? = some s) (hact : s.active = true)
    (hlock : s.startTime + s.lockPeriod ≤ now) (hnexp : ¬ isExpired s now)
    (hpool : st.rewardPool < calculateRewardOf s now) :
    unstake st u i now = .error "insufficient reward pool balance" := by
  simp [unstake, hp, hs, hact, hnexp, hlock, hpool]

theorem unstake_expired_ok_of (st : YCState) (u i now : Nat) (s : StakeInfo)
    (hp : st.paused = false) (hs : (st.stakes u)[i]? = some s)
    (hae : ¬ (s.active = false ∧ s.expired = false)) (hexp : isExpired s now) :
    unstake st u i now =
      .ok ({ setAt st u i { s with expired := true, amount := 0, active := false }
              with rewardPool := st.rewardPool },
           s.amount, .UnstakeAfterLock u i s.amount 0) := by
  have hlock : s.startTime + s.lockPeriod ≤ now := by
    unfold isExpired at hexp
    omega
  have hcalc : calculateRewardOf { s with expired := true } now = 0 :=
    calculateRewardOf_expiredFlag now rfl
  simp [unstake, hp, hs, hae, hexp, hlock, hcalc]

theorem emergencyWithdraw_ok_of (st : YCState) (u i : Nat) (s : StakeInfo)
    (hp : st.paused = true) (hs : (st.stakes u)[i]? = some s) (hact : s.active = true) :
    emergencyWithdraw st u i =
      .ok (setAt st u i { s with amount := 0, active := false }, s.amount) := by
  simp [emergencyWithdraw, hp, hs, hact]

theorem cleanUpExpiredStake_ok_of (st : YCState) (u i now : Nat) (s : StakeInfo)
    (hs : (st.stakes u)[i]? = some s) (hact : s.active = true) (hexp : isExpired s now) :
    cleanUpExpiredStake st u i now =
      .ok (setAt st u i { s with active := false, expired := true }) := by
  simp [cleanUpExpiredStake, hs, hact, hexp]

/-! ## Inversion lemmas: what a successful call tells us about the states -/

theorem setLockParameters_ok_inv {st : YCState} {l d p : Nat} {st' : YCState}
    (h : setLockParameters st l d p = .ok st') :
    l ≠ 0 ∧ st' = { st with
      dailyRateByLock := fun dd => if dd = l then d else st.dailyRateByLock dd,
      penaltyByLock := fun dd => if dd = l then p else st.penaltyByLock dd } := by
  unfold setLockParameters at h
  split at h
  · cases h
  · next hl =>
    cases h
    exact ⟨hl, rfl⟩

theorem fundRewardPool_ok_inv {st : YCState} {a : Nat} {st' : YCState}
    (h : fundRewardPool st a = .ok st') :
    st.paused = false ∧ st' = { st with rewardPool := st.rewardPool + a } := by
  unfold fundRewardPool at h
  split at h
  · cases h
  · next hp =>
    split at h
    · cases h
    · cases h
      simp only [Bool.not_eq_true] at hp
      exact ⟨hp, rfl⟩

theorem stake_ok_inv {st : YCState} {u a l now : Nat} {st' : YCState}
    (h : stake st u a l now = .ok st') :
    st.paused = false ∧ a ≠ 0 ∧ st.dailyRateByLock l ≠ 0 ∧
    st' = { st with stakes :=
      (fun ad =>
        if ad = u then st.stakes u ++ [⟨a, now, l, st.dailyRateByLock l, 0, true, false⟩]
        else st.stakes ad) } := by
  unfold stake at h
  dsimp only at h
  split at h
  · cases h
  · next hp =>
    split at h
    · cases h
    · next ha =>
      split at h
      · cases h
      · next hr =>
        cases h
        simp only [Bool.not_eq_true] at hp
        exact ⟨hp, ha, hr, rfl⟩

theorem claimReward_ok_inv {st : YCState} {u i now : Nat} {st' : YCState} {p : Nat}
    (h : claimReward st u i now = .ok (st', p)) :
    ∃ s, st.paused = false ∧ (st.stakes u)[i]? = some s ∧ s.active = true ∧
      p = calculateRewardOf s now ∧ p ≠ 0 ∧ p ≤ st.rewardPool ∧
      st' = { setAt st u i { s with rewardsClaimed := s.rewardsClaimed + p }
              with rewardPool := st.rewardPool - p } := by
  unfold claimReward at h
  dsimp only at h
  split at h
  · cases h
  · next hp =>
    split at h
    · cases h
    · next s hs =>
      split at h
      · cases h
      · next hact =>
        split at h
        · cases h
        · next hr =>
          split at h
          · cases h
          · next hpool =>
            cases h
            simp only [Bool.not_eq_true] at hp
            simp only [Bool.not_eq_false] at hact
            exact ⟨s, hp, hs, hact, rfl, hr, Nat.le_of_not_lt hpool, rfl⟩

theorem unstake_ok_inv {st : YCState} {u i now : Nat} {st' : YCState} {pay : Nat}
    {ev : UnstakeEvent} (h : unstake st u i now = .ok (st', pay, ev)) :
    st.paused = false ∧
    ∃ s rec', (st.stakes u)[i]? = some s ∧
      st'.stakes = (setAt st u i rec').stakes ∧
      rec'.active = false ∧ rec'.amount = 0 := by
  unfold unstake at h
  dsimp only at h
  split at h
  · cases h
  · next hp =>
    simp only [Bool.not_eq_true] at hp
    refine ⟨hp, ?_⟩
    split at h
    · cases h
    · next s hs =>
      split at h
      · cases h
      · next hae =>
        by_cases hexp : isExpired s now
        · rw [if_pos hexp] at h
          split at h
          · split at h
            · cases h
            · cases h
              exact ⟨s, _, hs, rfl, rfl, rfl⟩
          · split at h
            · cases h
            · cases h
              exact ⟨s, _, hs, rfl, rfl, rfl⟩
        · rw [if_neg hexp] at h
          split at h
          · split at h
            · cases h
            · cases h
              exact ⟨s, _, hs, rfl, rfl, rfl⟩
          · split at h
            · cases h
            · cases h
              exact ⟨s, _, hs, rfl, rfl, rfl⟩

theorem cleanUpExpiredStake_ok_inv {st : YCState} {u i now : Nat} {st' : YCState}
    (h : cleanUpExpiredStake st u i now = .ok st') :
    ∃ s, (st.stakes u)[i]? = some s ∧ s.active = true ∧ isExpired s now ∧
      st' = setAt st u i { s with active := false, expired := true } := by
  unfold cleanUpExpiredStake at h
  split at h
  · cases h
  · next s hs =>
    split at h
    · cases h
    · next hact =>
      split at h
      · cases h
      · next hexp =>
        cases h
        simp only [Bool.not_eq_false] at hact
        rw [not_not] at hexp
        exact ⟨s, hs, hact, hexp, rfl⟩

theorem emergencyWithdraw_ok_inv {st : YCState} {u i : Nat} {st' : YCState} {pay : Nat}
    (h : emergencyWithdraw st u i = .ok (st', pay)) :
    st.paused = true ∧
    ∃ s, (st.stakes u)[i]? = some s ∧ s.active = true ∧ pay = s.amount ∧
      st' = setAt st u i { s with amount := 0, active := false } := by
  unfold emergencyWithdraw at h
  split at h
  · cases h
  · next hp =>
    simp only [Bool.not_eq_false] at hp
    refine ⟨hp, ?_⟩
    split at h
    · cases h
    · next s hs =>
      split at h
      · cases h
      · next hact =>
        cases h
        simp only [Bool.not_eq_false] at hact
        exact ⟨s, hs, hact, rfl, rfl⟩

/-! ## Reachable-state invariants -/

theorem capInv_step {st st' : YCState} (op : Op) (now : Nat)
    (hinv : CapInv st) (h : stepOp st op now = .ok st') : CapInv st' := by
  cases op with
  | setLockParameters l d p =>
    obtain ⟨-, hst⟩ := setLockParameters_ok_inv h
    subst hst
    exact fun u s hs hact => hinv u s hs hact
  | fundRewardPool a =>
    obtain ⟨-, hst⟩ := fundRewardPool_ok_inv h
    subst hst
    exact fun u s hs hact => hinv u s hs hact
  | stake u0 a l =>
    obtain ⟨-, -, -, hst⟩ := stake_ok_inv h
    subst hst
    intro u s hs hact
    dsimp only at hs
    by_cases hu : u = u0
    · rw [if_pos hu] at hs
      rcases List.mem_append.mp hs with h1 | h1
      · exact hinv u0 s (hu ▸ h1) hact
      · rw [List.mem_singleton.mp h1]
        exact Nat.zero_le _
    · rw [if_neg hu] at hs
      exact hinv u s hs hact
  | claimReward u0 i0 =>
    simp only [stepOp] at h
    cases hc : claimReward st u0 i0 now with
    | error e =>
      rw [hc] at h
      cases h
    | ok pr =>
      obtain ⟨st1, p⟩ := pr
      rw [hc] at h
      cases h
      obtain ⟨s, -, hs, hact, hpe, hne, -, hst⟩ := claimReward_ok_inv hc
      subst hst
      intro u s2 hs2 hact2
      rcases mem_setAt hs2 with hmem | heq
      · exact hinv u s2 hmem hact2
      · subst heq
        have hcap : s.rewardsClaimed ≤ maxReward s :=
          hinv u0 s (List.getElem?_mem hs) hact
        rw [hpe]
        exact rewardsClaimed_add_calc_le s now hcap
  | unstake u0 i0 =>
    simp only [stepOp] at h
    cases hc : unstake st u0 i0 now with
    | error e =>
      rw [hc] at h
      cases h
    | ok pr =>
      obtain ⟨st1, pay, ev⟩ := pr
      rw [hc] at h
      cases h
      obtain ⟨-, s, rec', -, hstakes, hrec, -⟩ := unstake_ok_inv hc
      intro u s2 hs2 hact2
      rw [hstakes] at hs2
      rcases mem_setAt hs2 with hmem | heq
      · exact hinv u s2 hmem hact2
      · subst heq
        rw [hrec] at hact2
        cases hact2
  | cleanUpExpiredStake u0 i0 =>
    simp only [stepOp] at h
    obtain ⟨s, -, -, -, hst⟩ := cleanUpExpiredStake_ok_inv h
    subst hst
    intro u s2 hs2 hact2
    rcases mem_setAt hs2 with hmem | heq
    · exact hinv u s2 hmem hact2
    · subst heq
      cases hact2
  | emergencyWithdraw u0 i0 =>
    simp only [stepOp] at h
    cases hc : emergencyWithdraw st u0 i0 with
    | error e =>
      rw [hc] at h
      cases h
    | ok pr =>
      obtain ⟨st1, pay⟩ := pr
      rw [hc] at h
      cases h
      obtain ⟨-, s, -, -, -, hst⟩ := emergencyWithdraw_ok_inv hc
      subst hst
      intro u s2 hs2 hact2
      rcases mem_setAt hs2 with hmem | heq
      · exact hinv u s2 hmem hact2
      · subst heq
        cases hact2
  | pause =>
    simp only [stepOp] at h
    split at h
    · cases h
    · cases h
      exact fun u s hs hact => hinv u s hs hact
  | unpause =>
    simp only [stepOp] at h
    split at h
    · cases h
      exact fun u s hs hact => hinv u s hs hact
    · cases h

theorem tombInv_step {st st' : YCState} (op : Op) (now : Nat)
    (hinv : TombInv st) (h : stepOp st op now = .ok st') : TombInv st' := by
  cases op with
  | setLockParameters l d p =>
    obtain ⟨-, hst⟩ := setLockParameters_ok_inv h
    subst hst
    exact fun u s hs hact => hinv u s hs hact
  | fundRewardPool a =>
    obtain ⟨-, hst⟩ := fundRewardPool_ok_inv h
    subst hst
    exact fun u s hs hact => hinv u s hs hact
  | stake u0 a l =>
    obtain ⟨-, -, -, hst⟩ := stake_ok_inv h
    subst hst
    intro u s hs hinact
    dsimp only at hs
    by_cases hu : u = u0
    · rw [if_pos hu] at hs
      rcases List.mem_append.mp hs with h1 | h1
      · exact hinv u0 s (hu ▸ h1) hinact
      · rw [List.mem_singleton.mp h1] at hinact
        cases hinact
    · rw [if_neg hu] at hs
      exact hinv u s hs hinact
  | claimReward u0 i0 =>
    simp only [stepOp] at h
    cases hc : claimReward st u0 i0 now with
    | error e =>
      rw [hc] at h
      cases h
    | ok pr =>
      obtain ⟨st1, p⟩ := pr
      rw [hc] at h
      cases h
      obtain ⟨s, -, hs, hact, -, -, -, hst⟩ := claimReward_ok_inv hc
      subst hst
      intro u s2 hs2 hinact
      rcases mem_setAt hs2 with hmem | heq
      · exact hinv u s2 hmem hinact
      · subst heq
        rw [show ({ s with rewardsClaimed := s.rewardsClaimed + p } : StakeInfo).active
              = s.active from rfl, hact] at hinact
        cases hinact
  | unstake u0 i0 =>
    simp only [stepOp] at h
    cases hc : unstake st u0 i0 now with
    | error e =>
      rw [hc] at h
      cases h
    | ok pr =>
      obtain ⟨st1, pay, ev⟩ := pr
      rw [hc] at h
      cases h
      obtain ⟨-, s, rec', -, hstakes, -, hamt⟩ := unstake_ok_inv hc
      intro u s2 hs2 hinact
      rw [hstakes] at hs2
      rcases mem_setAt hs2 with hmem | heq
      · exact hinv u s2 hmem hinact
      · subst heq
        exact Or.inl hamt
  | cleanUpExpiredStake u0 i0 =>
    simp only [stepOp] at h
    obtain ⟨s, -, -, -, hst⟩ := cleanUpExpiredStake_ok_inv h
    subst hst
    intro u s2 hs2 hinact
    rcases mem_setAt hs2 with hmem | heq
    · exact hinv u s2 hmem hinact
    · subst heq
      exact Or.inr rfl
  | emergencyWithdraw u0 i0 =>
    simp only [stepOp] at h
    cases hc : emergencyWithdraw st u0 i0 with
    | error e =>
      rw [hc] at h
      cases h
    | ok pr =>
      obtain ⟨st1, pay⟩ := pr
      rw [hc] at h
      cases h
      obtain ⟨-, s, -, -, -, hst⟩ := emergencyWithdraw_ok_inv hc
      subst hst
      intro u s2 hs2 hinact
      rcases mem_setAt hs2 with hmem | heq
      · exact hinv u s2 hmem hinact
      · subst heq
        exact Or.inl rfl
  | pause =>
    simp only [stepOp] at h
    split at h
    · cases h
    · cases h
      exact fun u s hs hact => hinv u s hs hact
  | unpause =>
    simp only [stepOp] at h
    split at h
    · cases h
      exact fun u s hs hact => hinv u s hs hact
    · cases h

theorem capInv_reachable {st : YCState} (h : Reachable st) : CapInv st := by
  induction h with
  | init =>
    intro u s hs
    simp [initialState] at hs
  | step op now _ hstep ih => exact capInv_step op now ih hstep

theorem tombInv_reachable {st : YCState} (h : Reachable st) : TombInv st := by
  induction h with
  | init =>
    intro u s hs
    simp [initialState] at hs
  | step op now _ hstep ih => exact tombInv_step op now ih hstep

/-- An emptied slot keeps `amount = 0` across every successful operation. -/
theorem amountZero_persists {st st' : YCState} (op : Op) (now : Nat)
    (h : stepOp st op now = .ok st') {u i : Nat} {s : StakeInfo}
    (hs : (st.stakes u)[i]? = some s) (h0 : s.amount = 0) :
    ∃ s', (st'.stakes u)[i]? = some s' ∧ s'.amount = 0 := by
  have hlen : i < (st.stakes u).length := getElem?_lt_length hs
  cases op with
  | setLockParameters l d p =>
    obtain ⟨-, hst⟩ := setLockParameters_ok_inv h
    subst hst
    exact ⟨s, hs, h0⟩
  | fundRewardPool a =>
    obtain ⟨-, hst⟩ := fundRewardPool_ok_inv h
    subst hst
    exact ⟨s, hs, h0⟩
  | stake u0 a l =>
    obtain ⟨-, -, -, hst⟩ := stake_ok_inv h
    subst hst
    dsimp only
    by_cases hu : u = u0
    · rw [if_pos hu]
      subst hu
      refine ⟨s, ?_, h0⟩
      rw [List.getElem?_append_left hlen]
      exact hs
    · rw [if_neg hu]
      exact ⟨s, hs, h0⟩
  | claimReward u0 i0 =>
    simp only [stepOp] at h
    cases hc : claimReward st u0 i0 now with
    | error e =>
      rw [hc] at h
      cases h
    | ok pr =>
      obtain ⟨st1, p⟩ := pr
      rw [hc] at h
      cases h
      obtain ⟨s0, -, hs0, -, -, -, -, hst⟩ := claimReward_ok_inv hc
      subst hst
      by_cases hu : u = u0
      · subst hu
        by_cases hi : i0 = i
        · subst hi
          rw [hs0] at hs
          cases hs
          exact ⟨_, setAt_stakes_self hlen _, h0⟩
        · rw [show ({ setAt st u i0 { s0 with rewardsClaimed := s0.rewardsClaimed + p }
                with rewardPool := st.rewardPool - p } : YCState).stakes
              = (setAt st u i0 { s0 with rewardsClaimed := s0.rewardsClaimed + p }).stakes
              from rfl]
          rw [setAt_stakes_ne_index _ hi]
          exact ⟨s, hs, h0⟩
      · refine ⟨s, ?_, h0⟩
        rw [show ({ setAt st u0 i0 { s0 with rewardsClaimed := s0.rewardsClaimed + p }
                with rewardPool := st.rewardPool - p } : YCState).stakes
              = (setAt st u0 i0 { s0 with rewardsClaimed := s0.rewardsClaimed + p }).stakes
              from rfl]
        rw [setAt_stakes_ne_user _ _ hu]
        exact hs
  | unstake u0 i0 =>
    simp only [stepOp] at h
    cases hc : unstake st u0 i0 now with
    | error e =>
      rw [hc] at h
      cases h
    | ok pr =>
      obtain ⟨st1, pay, ev⟩ := pr
      rw [hc] at h
      cases h
      obtain ⟨-, s0, rec', hs0, hstakes, -, hamt⟩ := unstake_ok_inv hc
      rw [hstakes]
      by_cases hu : u = u0
      · subst hu
        by_cases hi : i0 = i
        · subst hi
          exact ⟨rec', setAt_stakes_self (getElem?_lt_length hs0) _, hamt⟩
        · rw [setAt_stakes_ne_index _ hi]
          exact ⟨s, hs, h0⟩
      · rw [setAt_stakes_ne_user _ _ hu]
        exact ⟨s, hs, h0⟩
  | cleanUpExpiredStake u0 i0 =>
    simp only [stepOp] at h
    obtain ⟨s0, hs0, -, -, hst⟩ := cleanUpExpiredStake_ok_inv h
    subst hst
    by_cases hu : u = u0
    · subst hu
      by_cases hi : i0 = i
      · subst hi
        rw [hs0] at hs
        cases hs
        exact ⟨_, setAt_stakes_self hlen _, h0⟩
      · rw [show (setAt st u i0 { s0 with active := false, expired := true }).stakes u
              = (setAt st u i0 { s0 with active := false, expired := true }).stakes u from rfl]
        rw [setAt_stakes_ne_index _ hi]
        exact ⟨s, hs, h0⟩
    · rw [setAt_stakes_ne_user _ _ hu]
      exact ⟨s, hs, h0⟩
  | emergencyWithdraw u0 i0 =>
    simp only [stepOp] at h
    cases hc : emergencyWithdraw st u0 i0 with
    | error e =>
      rw [hc] at h
      cases h
    | ok pr =>
      obtain ⟨st1, pay⟩ := pr
      rw [hc] at h
      cases h
      obtain ⟨-, s0, hs0, -, -, hst⟩ := emergencyWithdraw_ok_inv hc
      subst hst
      by_cases hu : u = u0
      · subst hu
        by_cases hi : i0 = i
        · subst hi
          exact ⟨_, setAt_stakes_self (getElem?_lt_length hs0) _, rfl⟩
        · rw [setAt_stakes_ne_index _ hi]
          exact ⟨s, hs, h0⟩
      · rw [setAt_stakes_ne_user _ _ hu]
        exact ⟨s, hs, h0⟩
  | pause =>
    simp only [stepOp] at h
    split at h
    · cases h
    · cases h
      exact ⟨s, hs, h0⟩
  | unpause =>
    simp only [stepOp] at h
    split at h
    · cases h
      exact ⟨s, hs, h0⟩
    · cases h

/-- After a claim that paid `p ≠ 0`, the claimable amount at the same
instant is zero: the claim raised `rewardsClaimed` to exactly
`totalEarned` at that instant. -/
theorem calculateRewardOf_after_claim (s : StakeInfo) (now p : Nat)
    (hp : p = calculateRewardOf s now) (hne : p ≠ 0) :
    calculateRewardOf { s with rewardsClaimed := s.rewardsClaimed + p } now = 0 := by
  by_cases hg : s.active = false ∨ s.expired = true ∨ isExpired s now
  · exfalso
    apply hne
    rw [hp]
    rcases hg with h | h | h
    · exact calculateRewardOf_inactive now h
    · exact calculateRewardOf_expiredFlag now h
    · exact calculateRewardOf_isExpired h
  · have hg2 : ¬ (s.active = false ∨ s.expired = true ∨
        isExpired { s with rewardsClaimed := s.rewardsClaimed + p } now) := hg
    simp only [calculateRewardOf] at hp ⊢
    rw [if_neg hg] at hp
    rw [if_neg hg2]
    set e := (if now - s.startTime > MAX_REWARD_TIME then MAX_REWARD_TIME
        else now - s.startTime) with hE
    split at hp
    · exact absurd hp hne
    · next hlt =>
      split
      · rfl
      · next h2 =>
        exfalso
        apply h2
        omega

/-! ## Reachability of the concrete scenario states -/

theorem reachable_stBase : Reachable stBase :=
  reachable_applyTrace baseTrace Reachable.init rfl

theorem reachable_stUnstaked : Reachable stUnstaked :=
  reachable_applyTrace (baseTrace ++ [(Op.unstake 0 0, 86400)]) Reachable.init (by rfl)

theorem reachable_stCleaned : Reachable stCleaned :=
  reachable_applyTrace
    [(Op.setLockParameters 600 10 10, 0), (Op.stake 0 100 600, 0),
     (Op.cleanUpExpiredStake 0 0, 173400)] Reachable.init rfl

theorem reachable_stPenalty200 : Reachable stPenalty200 :=
  reachable_applyTrace
    [(Op.setLockParameters 600 10 200, 0), (Op.stake 0 100 600, 0)] Reachable.init rfl

theorem reachable_stPenalty101 : Reachable stPenalty101 :=
  reachable_applyTrace
    [(Op.setLockParameters 600 10 101, 0), (Op.stake 0 1 600, 0)] Reachable.init rfl

theorem if_gt_eq_min (a b : Nat) : (if a > b then b else a) = min a b := by
  rw [Nat.min_def]
  rcases Nat.lt_or_ge b a with h | h
  · rw [if_pos h, if_neg (by omega)]
  · rw [if_neg (by omega), if_pos h]

/-! ## The claims -/

/-- C4: for every stake record at a valid index and current time `now`,
`calculateReward` returns 0 if the record is inactive, flagged expired, or
`now ≥ start + lockDuration + GRACE_PERIOD`; otherwise it returns
`max(floor(principal * fixedRate * min(now - start, MAX_REWARD_TIME) /
(100 * SECONDS_PER_DAY)) - rewardsClaimed, 0)` with truncating integer
division — i.e. the code-derived view agrees everywhere with the
spec-modelled `claimFormula`.  (In Solidity, `now - start` would revert for
`now < start`; over `Nat` both sides use the same truncated subtraction,
and every reachable record has `start ≤ now` under a monotone clock.) -/
theorem C4_calculateReward_matches_formula (st : YCState) (u i now : Nat) (s : StakeInfo)
    (hs : (st.stakes u)[i]? = some s) :
    calculateReward st u i now = claimFormula s now := by
  rw [calculateReward_eq_of now hs]
  unfold calculateRewardOf claimFormula
  have hgiff : (s.active = false ∨ s.expired = true ∨ isExpired s now) ↔
      (s.active = false ∨ s.expired = true ∨
        s.startTime + s.lockPeriod + GRACE_PERIOD ≤ now) := Iff.rfl
  by_cases hg : s.active = false ∨ s.expired = true ∨ isExpired s now
  · rw [if_pos hg, if_pos (hgiff.mp hg)]
  · rw [if_neg hg, if_neg (fun hc => hg (hgiff.mpr hc))]
    dsimp only
    rw [if_gt_eq_min]
    simp only [DIVISOR]
    split
    · next h2 => exact (Nat.sub_eq_zero_of_le h2).symm
    · rfl

/-- Witness for C4 at the base scenario, twelve hours in. -/
theorem C4_witness :
    calculateReward stBase 0 0 43200 = claimFormula ⟨100, 0, 600, 10, 0, true, false⟩ 43200 :=
  C4_calculateReward_matches_formula stBase 0 0 43200 ⟨100, 0, 600, 10, 0, true, false⟩ rfl

/-- C7: `emergencyWithdraw` succeeds exactly on active records while the
system is paused; it then pays out the stored principal, pays no reward,
and leaves `rewardPool` and the record's `rewardsClaimed` unchanged
(the written record only zeroes `amount` and clears `active`).  It fails
when the system is unpaused or the record is inactive. -/
theorem C7_emergencyWithdraw_spec (st : YCState) (u i : Nat) (s : StakeInfo)
    (hs : (st.stakes u)[i]? = some s) :
    (st.paused = true → s.active = true →
      emergencyWithdraw st u i =
        .ok (setAt st u i { s with amount := 0, active := false }, s.amount) ∧
      (setAt st u i { s with amount := 0, active := false }).rewardPool = st.rewardPool ∧
      ((setAt st u i { s with amount := 0, active := false }).stakes u)[i]? =
        some { s with amount := 0, active := false })
    ∧ (st.paused = false → emergencyWithdraw st u i = .error "not paused")
    ∧ (st.paused = true → s.active = false → emergencyWithdraw st u i = .error "invalid stake") := by
  refine ⟨fun hp hact => ⟨emergencyWithdraw_ok_of st u i s hp hs hact, rfl, ?_⟩,
    fun hp => ?_, fun hp hinact => ?_⟩
  · exact setAt_stakes_self (getElem?_lt_length hs) _
  · simp [emergencyWithdraw, hp]
  · simp [emergencyWithdraw, hp, hs, hinact]

/-- Witness for C7: emergency withdrawal in the paused base scenario. -/
theorem C7_witness :
    emergencyWithdraw stBasePaused 0 0 =
      .ok (setAt stBasePaused 0 0 ⟨0, 0, 600, 10, 0, false, false⟩, 100) :=
  ((C7_emergencyWithdraw_spec stBasePaused 0 0 ⟨100, 0, 600, 10, 0, true, false⟩ rfl).1
    rfl rfl).1

/-- C8: a successful `setLockParameters` call (for any duration, including
one already used by existing stakes) leaves every stake record unchanged
and leaves `calculateReward` unchanged for every user, index and time:
the rate was frozen into `fixedRate` at creation and the registry is never
re-read by the reward computation. -/
theorem C8_setLockParameters_frame (st : YCState) (l d p : Nat) (st' : YCState)
    (h : setLockParameters st l d p = .ok st') :
    st'.stakes = st.stakes ∧
      ∀ u i now, calculateReward st' u i now = calculateReward st u i now := by
  obtain ⟨-, hst⟩ := setLockParameters_ok_inv h
  subst hst
  exact ⟨rfl, fun u i now => rfl⟩

/-- Witness for C8: re-registering lock parameters over the base scenario. -/
theorem C8_witness :
    stRelocked.stakes = stBase.stakes ∧
      ∀ u i now, calculateReward stRelocked u i now = calculateReward stBase u i now :=
  C8_setLockParameters_frame stBase 700 5 5 stRelocked (by rfl)

/-- C5 fails as stated: it is quantified over every active record and every
registered penalty rate, but with `penaltyRate = 200` and `principal = 100`
the computed penalty (200) exceeds the principal, the checked subtraction
`s.amount - penalty` reverts, and the early unstake produces no success
result at all (and in particular does not pay `principal - penalty` or
credit the pool). -/
theorem C5_counterexample :
    ¬ (∀ (st : YCState) (u i now : Nat) (s : StakeInfo),
        st.paused = false → (st.stakes u)[i]? = some s → s.active = true →
        now < s.startTime + s.lockPeriod →
        ∃ st', unstake st u i now =
            .ok (st',
              s.amount - s.amount * st.penaltyByLock s.lockPeriod / DIVISOR,
              .EarlyUnstake u i s.amount (s.amount * st.penaltyByLock s.lockPeriod / DIVISOR))
          ∧ st'.rewardPool = st.rewardPool + s.amount * st.penaltyByLock s.lockPeriod / DIVISOR) := by
  intro hcl
  obtain ⟨st', hok, -⟩ :=
    hcl stPenalty200 0 0 10 ⟨100, 0, 600, 10, 0, true, false⟩ rfl rfl rfl (by decide)
  rw [show unstake stPenalty200 0 0 10 = Except.error "arithmetic underflow" from rfl] at hok
  cases hok

/-- C5 (amended): for every active stake record, an early unstake
(unpaused, `now < start + lockPeriod`) — provided the computed penalty
`floor(principal * penaltyRate / 100)` does not exceed the principal, as is
always the case for `penaltyRate ≤ 100` — pays out `principal - penalty`,
increases the reward pool by exactly the penalty, pays no reward, and
leaves `rewardsClaimed` unchanged. -/
theorem C5_early_unstake_spec (st : YCState) (u i now : Nat) (s : StakeInfo)
    (hp : st.paused = false) (hs : (st.stakes u)[i]? = some s) (hact : s.active = true)
    (hlock : now < s.startTime + s.lockPeriod)
    (hpen : s.amount * st.penaltyByLock s.lockPeriod / DIVISOR ≤ s.amount) :
    unstake st u i now =
      .ok ({ setAt st u i { s with amount := 0, active := false }
              with rewardPool := st.rewardPool + s.amount * st.penaltyByLock s.lockPeriod / DIVISOR },
           s.amount - s.amount * st.penaltyByLock s.lockPeriod / DIVISOR,
           .EarlyUnstake u i s.amount (s.amount * st.penaltyByLock s.lockPeriod / DIVISOR))
    ∧ ((setAt st u i { s with amount := 0, active := false }).stakes u)[i]? =
        some { s with amount := 0, active := false } :=
  ⟨unstake_early_ok_of st u i now s hp hs hact hlock hpen,
   setAt_stakes_self (getElem?_lt_length hs) _⟩

/-- Witness for C5: early unstake in the base scenario at t = 10 pays
90 and credits the pool with the 10-token penalty. -/
theorem C5_witness :
    unstake stBase 0 0 10 =
      .ok ({ setAt stBase 0 0 ⟨0, 0, 600, 10, 0, false, false⟩ with rewardPool := 20 },
           90, .EarlyUnstake 0 0 100 10)
    ∧ ((setAt stBase 0 0 ⟨0, 0, 600, 10, 0, false, false⟩).stakes 0)[0]? =
        some ⟨0, 0, 600, 10, 0, false, false⟩ :=
  C5_early_unstake_spec stBase 0 0 10 ⟨100, 0, 600, 10, 0, true, false⟩ rfl rfl rfl
    (by decide) (by decide)

/-- C6: for an active record with the lock elapsed, `unstake`
(a) within the grace window pays `principal + claimable-at-that-instant`,
deducts exactly that reward from the pool, and fails (reverting the whole
call, hence with no state change) when the reward exceeds the pool; and
(b) at or after the end of the grace period first sets `expired := true`,
forcing the reward to zero, pays the principal only, leaves the pool
unchanged, and still takes the after-lock branch (event
`UnstakeAfterLock`), never the penalty path. -/
theorem C6_unstake_after_lock_spec (st : YCState) (u i now : Nat) (s : StakeInfo)
    (hp : st.paused = false) (hs : (st.stakes u)[i]? = some s) (hact : s.active = true) :
    ((s.startTime + s.lockPeriod ≤ now → now < s.startTime + s.lockPeriod + GRACE_PERIOD →
      (calculateReward st u i now ≤ st.rewardPool →
        ∃ st', unstake st u i now =
            .ok (st', s.amount + calculateReward st u i now,
                 .UnstakeAfterLock u i s.amount (calculateReward st u i now))
          ∧ st'.rewardPool = st.rewardPool - calculateReward st u i now)
      ∧ (st.rewardPool < calculateReward st u i now →
          unstake st u i now = .error "insufficient reward pool balance"))
    ∧ (s.startTime + s.lockPeriod + GRACE_PERIOD ≤ now →
        ∃ st', unstake st u i now = .ok (st', s.amount, .UnstakeAfterLock u i s.amount 0)
          ∧ st'.rewardPool = st.rewardPool
          ∧ (st'.stakes u)[i]? = some { s with expired := true, amount := 0, active := false })) := by
  constructor
  · intro hlock hgrace
    have hnexp : ¬ isExpired s now := by
      unfold isExpired
      omega
    rw [calculateReward_eq_of now hs]
    constructor
    · intro hpool
      exact ⟨_, unstake_afterLock_ok_of st u i now s hp hs hact hlock hnexp hpool, rfl⟩
    · intro hpool
      exact unstake_afterLock_err_of st u i now s hp hs hact hlock hnexp hpool
  · intro hexp
    have hae : ¬ (s.active = false ∧ s.expired = false) := by
      simp [hact]
    refine ⟨_, unstake_expired_ok_of st u i now s hp hs hae hexp, rfl, ?_⟩
    exact setAt_stakes_self (getElem?_lt_length hs) _

/-- Witness for C6: in the base scenario at t = 86400 the lock (600 s) has
elapsed, the grace window is still open, and the reward (10) fits the
pool (10). -/
theorem C6_witness :
    ∃ st', unstake stBase 0 0 86400 =
        .ok (st', 100 + calculateReward stBase 0 0 86400,
             .UnstakeAfterLock 0 0 100 (calculateReward stBase 0 0 86400))
      ∧ st'.rewardPool = stBase.rewardPool - calculateReward stBase 0 0 86400 :=
  (((C6_unstake_after_lock_spec stBase 0 0 86400 ⟨100, 0, 600, 10, 0, true, false⟩
      rfl rfl rfl).1 (by decide) (by decide)).1 (by decide))

/-- C9: a record emptied by an `unstake` that set `expired := true` can be
unstaken again: the guard accepts `expired = true`, the payout is 0 and a
further `UnstakeAfterLock` event (with principal 0 and reward 0) is
emitted — the withdrawn state is not strictly terminal, though no tokens
move. -/
theorem C9_expired_unstake_repeatable (st : YCState) (u i now1 now2 : Nat) (s : StakeInfo)
    (hp : st.paused = false) (hs : (st.stakes u)[i]? = some s) (hact : s.active = true)
    (hexp : isExpired s now1) (hmono : now1 ≤ now2)
    (st1 : YCState) (pay1 : Nat) (ev1 : UnstakeEvent)
    (h1 : unstake st u i now1 = .ok (st1, pay1, ev1)) :
    ∃ st2, unstake st1 u i now2 = .ok (st2, 0, .UnstakeAfterLock u i 0 0) := by
  have hae : ¬ (s.active = false ∧ s.expired = false) := by
    simp [hact]
  rw [unstake_expired_ok_of st u i now1 s hp hs hae hexp] at h1
  cases h1
  have hs1 : (({ setAt st u i { s with expired := true, amount := 0, active := false }
        with rewardPool := st.rewardPool } : YCState).stakes u)[i]? =
      some { s with expired := true, amount := 0, active := false } :=
    setAt_stakes_self (getElem?_lt_length hs) _
  have hexp1 : isExpired { s with expired := true, amount := 0, active := false } now2 := by
    unfold isExpired at hexp ⊢
    dsimp only
    omega
  have h2 := unstake_expired_ok_of
    { setAt st u i { s with expired := true, amount := 0, active := false }
      with rewardPool := st.rewardPool } u i now2
    { s with expired := true, amount := 0, active := false } hp hs1 (by simp) hexp1
  exact ⟨_, h2⟩

/-- Witness for C9: unstaking the long-expired base stake at t = 173400
and then again at t = 173500. -/
theorem C9_witness :
    ∃ st2, unstake stExpiredUnstaked 0 0 173500 = .ok (st2, 0, .UnstakeAfterLock 0 0 0 0) :=
  C9_expired_unstake_repeatable stBase 0 0 173400 173500 ⟨100, 0, 600, 10, 0, true, false⟩
    rfl rfl rfl (by decide) (by decide) stExpiredUnstaked 100
    (.UnstakeAfterLock 0 0 100 0) (by rfl)

/-- C10 fails as stated: with `penaltyRate = 101` and a 1-token stake the
computed penalty `floor(1 * 101 / 100) = 1` does not exceed the principal,
so the early unstake succeeds instead of always reverting. -/
theorem C10_counterexample :
    ¬ (∀ (st : YCState) (u i now : Nat) (s : StakeInfo),
        st.paused = false → (st.stakes u)[i]? = some s → s.active = true →
        100 < st.penaltyByLock s.lockPeriod →
        now < s.startTime + s.lockPeriod →
        ∃ e, unstake st u i now = .error e) := by
  intro hcl
  obtain ⟨e, he⟩ :=
    hcl stPenalty101 0 0 10 ⟨1, 0, 600, 10, 0, true, false⟩ rfl rfl rfl (by decide) (by decide)
  have hok : exceptIsOk (unstake stPenalty101 0 0 10) = true := by rfl
  rw [he] at hok
  simp [exceptIsOk] at hok

/-- C10 (amended): an early unstake of an active record reverts with the
arithmetic underflow (and, reverting, leaves all state unchanged) exactly
when the computed penalty `floor(principal * penaltyRate / 100)` exceeds
the stored principal — which can happen only when `penaltyRate > 100`,
but not always then; and never when `penaltyRate ≤ 100`. -/
theorem C10_early_unstake_underflow (st : YCState) (u i now : Nat) (s : StakeInfo)
    (hp : st.paused = false) (hs : (st.stakes u)[i]? = some s) (hact : s.active = true)
    (hlock : now < s.startTime + s.lockPeriod) :
    (s.amount < s.amount * st.penaltyByLock s.lockPeriod / DIVISOR →
      unstake st u i now = .error "arithmetic underflow")
    ∧ (st.penaltyByLock s.lockPeriod ≤ 100 →
      s.amount * st.penaltyByLock s.lockPeriod / DIVISOR ≤ s.amount) := by
  constructor
  · intro hpen
    exact unstake_early_err_of st u i now s hp hs hact hlock hpen
  · intro hle
    have h100 : s.amount * st.penaltyByLock s.lockPeriod / 100 ≤ s.amount :=
      calc s.amount * st.penaltyByLock s.lockPeriod / 100
          ≤ s.amount * 100 / 100 := Nat.div_le_div_right (Nat.mul_le_mul_left _ hle)
        _ = s.amount := Nat.mul_div_cancel s.amount (by norm_num)
    exact h100

/-- Witness for C10: with `penaltyRate = 200` and a 100-token stake the
penalty (200) exceeds the principal, so the early unstake reverts; and a
rate of at most 100 can never trigger the underflow branch. -/
theorem C10_witness :
    ((100 : Nat) < 100 * stPenalty200.penaltyByLock 600 / DIVISOR →
      unstake stPenalty200 0 0 10 = .error "arithmetic underflow")
    ∧ (stPenalty200.penaltyByLock 600 ≤ 100 →
      100 * stPenalty200.penaltyByLock 600 / DIVISOR ≤ 100) :=
  C10_early_unstake_underflow stPenalty200 0 0 10 ⟨100, 0, 600, 10, 0, true, false⟩
    rfl rfl rfl (by decide)

/-- C3: if a `claimReward` call succeeds at time `t`, a second
`claimReward` on the same record at the same time `t` transfers 0 tokens:
the first call raised `rewardsClaimed` to the exact total earned at `t`,
so the second call computes a claimable amount of 0 and reverts with
"no accrued rewards", pushing nothing to the caller. -/
theorem C3_second_claim_pays_zero (st st' : YCState) (u i now p : Nat)
    (h : claimReward st u i now = .ok (st', p)) :
    claimReward st' u i now = .error "no accrued rewards" ∧
      paidAmount (claimReward st' u i now) = 0 := by
  obtain ⟨s, hp, hs, hact, hpe, hne, hpool, hst⟩ := claimReward_ok_inv h
  subst hst
  have hs2 : (({ setAt st u i { s with rewardsClaimed := s.rewardsClaimed + p }
        with rewardPool := st.rewardPool - p } : YCState).stakes u)[i]? =
      some { s with rewardsClaimed := s.rewardsClaimed + p } :=
    setAt_stakes_self (getElem?_lt_length hs) _
  have hcalc0 : calculateRewardOf { s with rewardsClaimed := s.rewardsClaimed + p } now = 0 :=
    calculateRewardOf_after_claim s now p hpe hne
  have herr : claimReward { setAt st u i { s with rewardsClaimed := s.rewardsClaimed + p }
      with rewardPool := st.rewardPool - p } u i now = .error "no accrued rewards" :=
    claimReward_err_zero_of _ u i now { s with rewardsClaimed := s.rewardsClaimed + p }
      hp hs2 hact hcalc0
  refine ⟨herr, ?_⟩
  rw [herr]
  rfl

/-- Witness for C3: after the successful claim of 5 at t = 43200, the
second claim at the same instant reverts and pays nothing. -/
theorem C3_witness :
    claimReward stClaimed 0 0 43200 = .error "no accrued rewards" ∧
      paidAmount (claimReward stClaimed 0 0 43200) = 0 :=
  C3_second_claim_pays_zero stBase stClaimed 0 0 43200 5 (by rfl)

/-- C1 fails as stated over all records of all reachable states: an
after-lock `unstake` raises `rewardsClaimed` by the final reward and then
zeroes the stored amount, so the emptied record has
`rewardsClaimed = 10 > 0 = amount * fixedRate / 100` (with
`calculateReward = 0` since the record is inactive). -/
theorem C1_counterexample :
    ¬ (∀ st : YCState, Reachable st → ∀ (u i now : Nat) (s : StakeInfo),
        (st.stakes u)[i]? = some s →
        s.rewardsClaimed + calculateReward st u i now ≤ maxReward s) := by
  intro hcl
  have hbad := hcl stUnstaked reachable_stUnstaked 0 0 86400
    ⟨0, 0, 600, 10, 10, false, false⟩ (by rfl)
  exact absurd hbad (by decide)

/-- C1 (amended): for every ACTIVE stake record of every reachable state
and every time `now`, `rewardsClaimed` plus the currently claimable reward
never exceeds the day-1 cap `maxReward = amount * fixedRate / 100`
(elapsed time is capped at `MAX_REWARD_TIME` in the accrual formula).
Once the record is paid out and deactivated, its stored amount is zeroed
while `rewardsClaimed` persists, so the bound holds only for active
records. -/
theorem C1_cap_invariant (st : YCState) (h : Reachable st) (u i now : Nat) (s : StakeInfo)
    (hs : (st.stakes u)[i]? = some s) (hact : s.active = true) :
    s.rewardsClaimed + calculateReward st u i now ≤ maxReward s := by
  rw [calculateReward_eq_of now hs]
  exact rewardsClaimed_add_calc_le s now
    (capInv_reachable h u s (List.getElem?_mem hs) hact)

/-- Witness for C1 at the base scenario, twelve hours in: claimed (0) plus
claimable (5) stays below the cap (10). -/
theorem C1_witness :
    (0 : Nat) + calculateReward stBase 0 0 43200 ≤ maxReward ⟨100, 0, 600, 10, 0, true, false⟩ :=
  C1_cap_invariant stBase reachable_stBase 0 0 43200 ⟨100, 0, 600, 10, 0, true, false⟩ rfl rfl

/-- C2 fails as stated: `cleanUpExpiredStake` flips `active` to `false`
without zeroing the amount, so the cleaned record has `active = false` and
`amount = 100 > 0`. -/
theorem C2_counterexample :
    ¬ (∀ st : YCState, Reachable st → ∀ (u i : Nat) (s : StakeInfo),
        (st.stakes u)[i]? = some s → s.active = false → s.amount = 0) := by
  intro hcl
  have hbad := hcl stCleaned reachable_stCleaned 0 0
    ⟨100, 0, 600, 10, 0, false, true⟩ (by rfl) rfl
  exact absurd hbad (by decide)

/-- C2 (amended): in every reachable state, an inactive record has either
been emptied (`amount = 0`, the `unstake` and `emergencyWithdraw`
deactivations) or carries `expired = true` (the `cleanUpExpiredStake`
deactivation, which leaves the amount in place until a later `unstake`);
and once a record's amount is zero it stays zero across every successful
operation. -/
theorem C2_tombstone (st : YCState) (h : Reachable st) :
    (∀ (u i : Nat) (s : StakeInfo), (st.stakes u)[i]? = some s → s.active = false →
        s.amount = 0 ∨ s.expired = true)
    ∧ (∀ (op : Op) (now : Nat) (st' : YCState) (u i : Nat) (s : StakeInfo),
        stepOp st op now = .ok st' → (st.stakes u)[i]? = some s → s.amount = 0 →
        ∃ s', (st'.stakes u)[i]? = some s' ∧ s'.amount = 0) := by
  constructor
  · intro u i s hs hinact
    exact tombInv_reachable h u s (List.getElem?_mem hs) hinact
  · intro op now st' u i s hstep hs h0
    exact amountZero_persists op now hstep hs h0

/-- Witness for C2: the record tombstoned by `cleanUpExpiredStake` is
covered by the `expired = true` disjunct. -/
theorem C2_witness :
    (100 : Nat) = 0 ∨ (true : Bool) = true :=
  (C2_tombstone stCleaned reachable_stCleaned).1 0 0
    ⟨100, 0, 600, 10, 0, false, true⟩ (by rfl) rfl

end YieldCore
